import Mathlib

/-!
Shallow embedding of the deduction-game engine (`src/game_engine.py`,
`src/models.py`) and proofs about its claims.

Modelling conventions:
* `Card` is the tagged union over Character / Weapon / Room
  (`models.py` frozen dataclasses, compared by field equality).
* Python's `dict` keyed by cards is modelled as an association list
  (`Dict`): assignment replaces the value of an existing key in place
  and appends a fresh key at the end, exactly like a Python dict.
* `random.choice` over a non-empty list is modelled by an index (for
  `choose_solution`) or by an explicit choice function `pick` (for the
  tie-break among several matching refutation cards); `random.shuffle`
  is modelled by quantifying over permutations of the deck.
* Python runtime errors that the constructor can raise (`random.choice`
  on an empty list raises IndexError, `i % 0` raises ZeroDivisionError)
  are modelled with an `Except PyError` construction path `mkEngineE`.
  The engine methods `handle_suggestion` / `handle_accusation` contain
  no validation and raise nothing (other than `list.index` on a name
  that is not a player, which the theorems exclude by hypothesis), so
  they are embedded as total functions.
-/

/-- A card: suspect (Character has a name and a start room), weapon, or room. -/
inductive Card where
  | suspect (name : String) (startRoom : String)
  | weapon (name : String)
  | room (name : String)
deriving DecidableEq, Repr

/-- `Player` from `game_engine.py` (fields touched by the modelled
operations: `name`, `hand`, `active`; `character`, `current_room` and
`notebook` are never read or written by the operations the claims cover). -/
structure Player where
  name : String
  hand : List Card
  active : Bool
deriving DecidableEq, Repr

def defaultPlayer : Player := ⟨"", [], true⟩

/-- `SuggestionRecord` dataclass. -/
structure SuggestionRecord where
  suggester : String
  suspect : Card
  weapon : Card
  room : Card
  refuter : Option String := none
  shownCard : Option Card := none
deriving DecidableEq, Repr

/-- A Python dict with `Card` keys, as an insertion-ordered association list. -/
abbrev Dict := List (Card × Finset String)

/-- Dict lookup (`d[k]` read / `k in d`). -/
def dictFind : Dict → Card → Option (Finset String)
  | [], _ => none
  | (k', v) :: rest, k => if k' = k then some v else dictFind rest k

/-- Dict assignment `d[k] = v`: replaces the value of the (first
occurrence of the) key in place when it exists, appends a fresh key at
the end otherwise (Python dict insertion-order semantics; keys are
unique in every dict the engine builds). -/
def dictSet : Dict → Card → Finset String → Dict
  | [], k, v => [(k, v)]
  | (k', v') :: rest, k, v =>
    if k' = k then (k, v) :: rest else (k', v') :: dictSet rest k v

/-- `GameEngine` state (the fields the claims are about; the static
board data `suspects`, `weapons`, `rooms`, `adjacency` is carried by
the construction functions below and never mutated). -/
structure GameEngine where
  playerOrder : List String
  players : List Player
  solution : Card × Card × Card
  possibleOwners : Dict
  suggestions : List SuggestionRecord
  currentPlayerIndex : Nat
  gameOver : Bool
  winner : Option String
deriving DecidableEq

/-! ## `handle_suggestion` -/

/-- One hand's matching cards: `[c for c in player.hand if c in (suspect, weapon, room)]`. -/
def matchesOf (hand : List Card) (s w r : Card) : List Card :=
  hand.filter (fun c => c = s ∨ c = w ∨ c = r)

/-- The `for offset in range(1, n): ... break / else` loop of
`handle_suggestion`, over the list of offsets still to poll: returns the
first polled player holding a matching card, with their match list. -/
def refuteLoop (players : List Player) (idx : Nat) (s w r : Card) :
    List Nat → Option (Player × List Card)
  | [] => none
  | offset :: rest =>
    let player := players.getD ((idx + offset) % players.length) defaultPlayer
    let ms := matchesOf player.hand s w r
    if ms ≠ [] then some (player, ms) else refuteLoop players idx s w r rest

/-- `GameEngine.handle_suggestion`.  `pick` stands for `random.choice`
on the non-empty list of matching cards. -/
def handle_suggestion (pick : List Card → Card) (g : GameEngine)
    (suggester : String) (s w r : Card) : GameEngine × SuggestionRecord :=
  let idx := g.playerOrder.indexOf suggester
  let n := g.players.length
  match refuteLoop g.players idx s w r (List.range' 1 (n - 1)) with
  | some (player, ms) =>
      let shown := pick ms
      let record : SuggestionRecord :=
        { suggester := suggester, suspect := s, weapon := w, room := r,
          refuter := some player.name, shownCard := some shown }
      ({ g with
          possibleOwners := dictSet g.possibleOwners shown {player.name},
          suggestions := g.suggestions ++ [record] },
       record)
  | none =>
      let record : SuggestionRecord :=
        { suggester := suggester, suspect := s, weapon := w, room := r }
      ({ g with
          possibleOwners :=
            dictSet (dictSet (dictSet g.possibleOwners s {"CaseFile"})
              w {"CaseFile"}) r {"CaseFile"},
          suggestions := g.suggestions ++ [record] },
       record)

/-! ## `handle_accusation` -/

/-- `GameEngine.handle_accusation`.  The Python method receives the
`Player` object; players are identified here by their (unique) name. -/
def handle_accusation (g : GameEngine) (pname : String) (s w r : Card) :
    GameEngine × Bool :=
  let correct := s = g.solution.1 ∧ w = g.solution.2.1 ∧ r = g.solution.2.2
  if correct then
    ({ g with gameOver := true, winner := some pname }, true)
  else
    ({ g with players :=
        g.players.map (fun p => if p.name = pname then { p with active := false } else p) },
     false)

/-! ## `next_player` -/

/-- The `while True` loop of `next_player`; the fuel is the number of
players, which bounds the iterations (the index returns to
`original` after exactly `n` steps, and the loop always returns there).
Returns the final index and whether the game-over branch fired. -/
def nextPlayerAux (players : List Player) (original : Nat) :
    Nat → Nat → Nat × Bool
  | _, 0 => (original, false)
  | idx, fuel + 1 =>
    let idx' := (idx + 1) % players.length
    let p := players.getD idx' defaultPlayer
    if idx' = original ∧ p.active = false then (idx', true)
    else if p.active then (idx', false)
    else nextPlayerAux players original idx' fuel

/-- `GameEngine.next_player`. -/
def next_player (g : GameEngine) : GameEngine × Player :=
  let res := nextPlayerAux g.players g.currentPlayerIndex g.currentPlayerIndex
      g.players.length
  ({ g with currentPlayerIndex := res.1,
            gameOver := if res.2 then true else g.gameOver },
   g.players.getD res.1 defaultPlayer)

/-! ## Construction: `__init__`, `choose_solution`, `_deal_cards` -/

/-- Python runtime errors the constructor can raise. -/
inductive PyError where
  | indexError
  | zeroDivisionError
deriving DecidableEq, Repr

/-- `GameEngine.choose_solution`: `random.choice` from each category,
modelled by the indices `si wi ri` the RNG picks; `random.choice` on an
empty sequence raises IndexError. -/
def choose_solution (suspects weapons rooms : List Card) (si wi ri : Nat) :
    Except PyError (Card × Card × Card) :=
  if suspects = [] ∨ weapons = [] ∨ rooms = [] then .error .indexError
  else .ok (suspects.getD si (.suspect "" ""), weapons.getD wi (.weapon ""),
            rooms.getD ri (.room ""))

/-- The deck `_deal_cards` builds: the full universe with the three
solution cards removed (`list.remove` removes the first occurrence). -/
def removedDeck (suspects weapons rooms : List Card) (sol : Card × Card × Card) :
    List Card :=
  (((suspects ++ weapons ++ rooms).erase sol.1).erase sol.2.1).erase sol.2.2

/-- The round-robin loop of `_deal_cards` as seen from player `p`:
`for i, card in enumerate(deck): players[i % n].hand.append(card)`,
starting at enumeration index `i`. -/
def dealtTo (n p : Nat) : Nat → List Card → List Card
  | _, [] => []
  | i, c :: rest => (if i % n = p then [c] else []) ++ dealtTo n p (i + 1) rest

/-- The full card universe in `__init__` order. -/
def allCards (suspects weapons rooms : List Card) : List Card :=
  suspects ++ weapons ++ rooms

/-- The engine state `__init__` builds once no error is raised:
`shuffled` is the shuffled deck of non-solution cards.  Character
assignment (`random.choice` over remaining characters) touches only the
`character` / `current_room` fields, which no modelled operation reads,
so players carry name, dealt hand and the active flag. -/
def mkEngine (playerNames : List String) (suspects weapons rooms : List Card)
    (sol : Card × Card × Card) (shuffled : List Card) : GameEngine :=
  let n := playerNames.length
  { playerOrder := playerNames
    players := (List.range n).map (fun i =>
      { name := playerNames.getD i "", hand := dealtTo n i 0 shuffled, active := true })
    solution := sol
    possibleOwners := (allCards suspects weapons rooms).map
      (fun c => (c, (playerNames ++ ["CaseFile"]).toFinset))
    suggestions := []
    currentPlayerIndex := 0
    gameOver := false
    winner := none }

/-- `GameEngine.__init__` with its error behaviour: `choose_solution`
raises IndexError on an empty category; `_deal_cards` evaluates
`i % n` with `n = 0` (ZeroDivisionError) iff there are zero players and
the deck of non-solution cards is non-empty. -/
def mkEngineE (playerNames : List String) (suspects weapons rooms : List Card)
    (si wi ri : Nat) (shuffled : List Card) : Except PyError GameEngine :=
  match choose_solution suspects weapons rooms si wi ri with
  | .error e => .error e
  | .ok sol =>
    if playerNames.length = 0 ∧ shuffled ≠ [] then .error .zeroDivisionError
    else .ok (mkEngine playerNames suspects weapons rooms sol shuffled)

/-- Whether a constructor run raised an error. -/
def isErr : Except PyError GameEngine → Bool
  | .error _ => true
  | .ok _ => false

/-! ## Concrete scenario used by counterexamples and witnesses

A two-player game over the universe {one suspect, two weapons, one
room}; the solution is (s, v, r), so the one remaining card w is dealt
to player A. -/

def cS : Card := .suspect "s" "x"
def cW : Card := .weapon "w"
def cV : Card := .weapon "v"
def cR : Card := .room "r"

/-- An unknown suspect, outside the configured universe. -/
def ghostCard : Card := .suspect "ghost" "nowhere"

/-- A concrete stand-in for `random.choice` on match lists. -/
def pickHead : List Card → Card := fun l => l.headD (.weapon "")

/-- The concrete engine: players A and B, A holds the weapon w. -/
def gDemo : GameEngine := mkEngine ["A", "B"] [cS] [cW, cV] [cR] (cS, cV, cR) [cW]

/-- A suggests (s, w, r); B holds nothing, so it goes unrefuted and all
three cards' owner sets become {"CaseFile"} — even though A themself
holds w. -/
def gSuggest1 : GameEngine := (handle_suggestion pickHead gDemo "A" cS cW cR).1

/-- B then suggests (s, w, r); A refutes showing w, so w's owner set is
overwritten from {"CaseFile"} to {"A"}. -/
def gSuggest2 : GameEngine := (handle_suggestion pickHead gSuggest1 "B" cS cW cR).1

/-- A accuses correctly: game over, winner A. -/
def gWinA : GameEngine := (handle_accusation gDemo "A" cS cV cR).1

/-- B accuses incorrectly from the initial position: B eliminated. -/
def gElimB : GameEngine := (handle_accusation gDemo "B" cS cW cR).1

/-! ## Dictionary lemmas -/

theorem dictFind_dictSet_self (m : Dict) (k : Card) (v : Finset String) :
    dictFind (dictSet m k v) k = some v := by
  induction m with
  | nil => simp [dictSet, dictFind]
  | cons kv rest ih =>
    obtain ⟨a, b⟩ := kv
    by_cases hk : a = k
    · simp [dictSet, dictFind, hk]
    · simp [dictSet, dictFind, hk, ih]

theorem dictFind_dictSet_ne (m : Dict) (k k' : Card) (v : Finset String)
    (hne : k' ≠ k) : dictFind (dictSet m k v) k' = dictFind m k' := by
  induction m with
  | nil => simp [dictSet, dictFind, Ne.symm hne]
  | cons kv rest ih =>
    obtain ⟨a, b⟩ := kv
    by_cases hk : a = k
    · subst hk
      simp [dictSet, dictFind, Ne.symm hne]
    · by_cases ha : a = k'
      · simp [dictSet, dictFind, hk, ha, hne]
      · simp [dictSet, dictFind, hk, ha, ih]

/-- The owner set after the unrefuted-suggestion update: each of the
three suggested cards maps to the written value (last write wins even
when the three cards are not pairwise distinct). -/
theorem dictFind_tripleSet (m : Dict) (s w r c : Card) (v : Finset String)
    (hc : c = s ∨ c = w ∨ c = r) :
    dictFind (dictSet (dictSet (dictSet m s v) w v) r v) c = some v := by
  by_cases hr : c = r
  · subst hr
    exact dictFind_dictSet_self ..
  · rw [dictFind_dictSet_ne _ _ _ _ hr]
    by_cases hw : c = w
    · subst hw
      exact dictFind_dictSet_self ..
    · rw [dictFind_dictSet_ne _ _ _ _ hw]
      by_cases hs : c = s
      · subst hs
        exact dictFind_dictSet_self ..
      · rcases hc with h | h | h <;> contradiction

/-! ## Suggestion-loop lemmas -/

theorem refuteLoop_eq_none_of (players : List Player) (idx : Nat) (s w r : Card)
    (offs : List Nat)
    (h : ∀ o ∈ offs,
      matchesOf ((players.getD ((idx + o) % players.length) defaultPlayer).hand) s w r = []) :
    refuteLoop players idx s w r offs = none := by
  induction offs with
  | nil => rfl
  | cons o rest ih =>
    simp only [refuteLoop]
    rw [h o (by simp)]
    simpa using ih (fun o' ho' => h o' (by simp [ho']))

theorem refuteLoop_eq_some_inv (players : List Player) (idx : Nat) (s w r : Card)
    (offs : List Nat) (p : Player) (ms : List Card)
    (h : refuteLoop players idx s w r offs = some (p, ms)) :
    ms = matchesOf p.hand s w r ∧ ms ≠ [] ∧
    ∃ o ∈ offs, p = players.getD ((idx + o) % players.length) defaultPlayer := by
  induction offs with
  | nil => simp [refuteLoop] at h
  | cons o rest ih =>
    simp only [refuteLoop] at h
    split at h
    · rename_i hms
      rw [Option.some_inj] at h
      cases h
      exact ⟨rfl, hms, o, by simp, rfl⟩
    · obtain ⟨h1, h2, o', ho', h3⟩ := ih h
      exact ⟨h1, h2, o', by simp [ho'], h3⟩

theorem refuteLoop_first_match (players : List Player) (idx : Nat) (s w r : Card)
    (pre : List Nat) (o : Nat) (post : List Nat)
    (hpre : ∀ j ∈ pre,
      matchesOf ((players.getD ((idx + j) % players.length) defaultPlayer).hand) s w r = [])
    (ho : matchesOf ((players.getD ((idx + o) % players.length) defaultPlayer).hand) s w r ≠ []) :
    refuteLoop players idx s w r (pre ++ o :: post)
      = some (players.getD ((idx + o) % players.length) defaultPlayer,
          matchesOf ((players.getD ((idx + o) % players.length) defaultPlayer).hand) s w r) := by
  induction pre with
  | nil =>
    simp only [List.nil_append, refuteLoop]
    rw [if_pos ho]
  | cons j rest ih =>
    simp only [List.cons_append, refuteLoop]
    rw [hpre j (by simp)]
    simpa using ih (fun j' hj' => hpre j' (by simp [hj']))

/-! ## C5: possible-owner updates -/

/-- C5 (amended): every update a suggestion resolution makes to a
card's candidate-owner entry replaces it with a singleton ({refuter} or
{"CaseFile"}); entries not written are unchanged.  The update is not a
subset of the previous value in general (see the counterexample). -/
theorem suggestion_update_singleton (pick : List Card → Card) (g : GameEngine)
    (sg : String) (s w r c : Card) :
    dictFind ((handle_suggestion pick g sg s w r).1.possibleOwners) c
      = dictFind g.possibleOwners c
    ∨ ∃ nm, dictFind ((handle_suggestion pick g sg s w r).1.possibleOwners) c
      = some {nm} := by
  cases hloop : refuteLoop g.players (g.playerOrder.indexOf sg) s w r
      (List.range' 1 (g.players.length - 1)) with
  | some pm =>
    obtain ⟨p, ms⟩ := pm
    simp only [handle_suggestion, hloop]
    by_cases hc : c = pick ms
    · subst hc
      exact Or.inr ⟨p.name, dictFind_dictSet_self ..⟩
    · exact Or.inl (dictFind_dictSet_ne _ _ _ _ hc)
  | none =>
    simp only [handle_suggestion, hloop]
    by_cases hc : c = s ∨ c = w ∨ c = r
    · exact Or.inr ⟨"CaseFile", dictFind_tripleSet _ _ _ _ _ _ hc⟩
    · push_neg at hc
      obtain ⟨h1, h2, h3⟩ := hc
      rw [dictFind_dictSet_ne _ _ _ _ h3, dictFind_dictSet_ne _ _ _ _ h2,
        dictFind_dictSet_ne _ _ _ _ h1]
      exact Or.inl rfl

/-- C5 counterexample: after A's unrefuted suggestion of (s, w, r) the
weapon w's owner set is {"CaseFile"}; when B then suggests the same
triple, A refutes by showing w (which A held all along) and w's owner
set is overwritten to {"A"}, which is not a subset of {"CaseFile"}. -/
theorem suggestion_update_not_monotonic_cex :
    dictFind gSuggest1.possibleOwners cW = some {"CaseFile"}
    ∧ dictFind gSuggest2.possibleOwners cW = some {"A"}
    ∧ ¬ (({"A"} : Finset String) ⊆ {"CaseFile"}) := by decide

/-! ## C1: accusations after game over -/

/-- C1 (amended): once game-over is true with winner W, a further
accusation that does not exactly match the hidden solution leaves the
winner at W (and the game stays over); but the resolver does not gate
on game-over, so a further exact-match accusation by any player P
overwrites the winner with P. -/
theorem accusation_after_win (g : GameEngine) (W pname : String) (s w r : Card)
    (hover : g.gameOver = true) (hwin : g.winner = some W) :
    (handle_accusation g pname s w r).1.gameOver = true
    ∧ (¬(s = g.solution.1 ∧ w = g.solution.2.1 ∧ r = g.solution.2.2) →
        (handle_accusation g pname s w r).1.winner = some W)
    ∧ ((s = g.solution.1 ∧ w = g.solution.2.1 ∧ r = g.solution.2.2) →
        (handle_accusation g pname s w r).1.winner = some pname) := by
  by_cases hc : s = g.solution.1 ∧ w = g.solution.2.1 ∧ r = g.solution.2.2
  · simp [handle_accusation, hc, hover, hwin]
  · simp [handle_accusation, hc, hover, hwin]

/-- Witness for `accusation_after_win`: A has just won in `gWinA`. -/
theorem accusation_after_win_witness :
    gWinA.gameOver = true ∧ gWinA.winner = some "A"
    ∧ ((handle_accusation gWinA "B" cS cW cR).1.gameOver = true
      ∧ (¬(cS = gWinA.solution.1 ∧ cW = gWinA.solution.2.1 ∧ cR = gWinA.solution.2.2) →
          (handle_accusation gWinA "B" cS cW cR).1.winner = some "A")
      ∧ ((cS = gWinA.solution.1 ∧ cW = gWinA.solution.2.1 ∧ cR = gWinA.solution.2.2) →
          (handle_accusation gWinA "B" cS cW cR).1.winner = some "B")) :=
  ⟨by decide, by decide,
    accusation_after_win gWinA "A" "B" cS cW cR (by decide) (by decide)⟩

/-- C1 counterexample: A wins (winner = "A", game over); B then accuses
with the exact solution and the winner silently becomes "B". -/
theorem winner_overwritten_cex :
    gWinA.gameOver = true ∧ gWinA.winner = some "A"
    ∧ (handle_accusation gWinA "B" cS cV cR).1.winner = some "B" := by decide

/-! ## C6: construction errors -/

/-- C6 (amended): construction fails iff a card category is empty (the
`random.choice` of `choose_solution` raises IndexError) or there are
zero players and at least one non-solution card must be dealt
(`i % 0` raises ZeroDivisionError).  In particular, with zero players
and no cards left after removing the solution, the engine *is*
constructed; no ConfigurationError type exists in the code. -/
theorem mkEngineE_error_iff (playerNames : List String)
    (suspects weapons rooms : List Card) (si wi ri : Nat) (shuffled : List Card) :
    isErr (mkEngineE playerNames suspects weapons rooms si wi ri shuffled) = true
      ↔ (suspects = [] ∨ weapons = [] ∨ rooms = []
          ∨ (playerNames = [] ∧ shuffled ≠ [])) := by
  by_cases h : suspects = [] ∨ weapons = [] ∨ rooms = []
  · simp only [mkEngineE, choose_solution, if_pos h, isErr, true_iff]
    tauto
  · by_cases h2 : playerNames.length = 0 ∧ shuffled ≠ []
    · simp only [mkEngineE, choose_solution, if_neg h, if_pos h2, isErr]
      simp only [List.length_eq_zero] at h2
      simp [h2]
    · simp only [mkEngineE, choose_solution, if_neg h, if_neg h2, isErr]
      simp only [List.length_eq_zero] at h2
      simp only [Bool.false_eq_true, false_iff]
      push_neg at h ⊢
      obtain ⟨h1, h2', h3⟩ := h
      refine ⟨h1, h2', h3, ?_⟩
      intro hp
      by_contra hsh
      exact h2 ⟨hp, hsh⟩

/-- C6 counterexample: zero players, non-empty categories, and a
universe of exactly three cards: construction succeeds and yields an
engine with no players. -/
theorem zero_players_constructed_cex :
    mkEngineE [] [cS] [cV] [cR] 0 0 0 []
      = .ok (mkEngine [] [cS] [cV] [cR] (cS, cV, cR) [])
    ∧ removedDeck [cS] [cV] [cR] (cS, cV, cR) = []
    ∧ (mkEngine [] [cS] [cV] [cR] (cS, cV, cR) []).players = [] :=
  ⟨rfl, by decide, by decide⟩

/-! ## C7: invalid references -/

/-- C7 (amended): no validation is performed and no ValidationError
type exists.  A suggestion naming a card outside the configured
universe (no key in the possible-owner map) is processed like any
other: when it goes unrefuted the unknown card is *added* to the map
with owner set {"CaseFile"}, so the engine state is mutated rather than
left unchanged; likewise an accusation naming unknown cards is simply a
mismatch and eliminates the accuser. -/
theorem invalid_reference_mutates (pick : List Card → Card) (g : GameEngine)
    (sg : String) (s w r : Card)
    (hunknown : dictFind g.possibleOwners s = none)
    (hnomatch : ∀ o, 1 ≤ o → o < g.players.length →
      matchesOf ((g.players.getD ((g.playerOrder.indexOf sg + o) % g.players.length)
        defaultPlayer).hand) s w r = []) :
    dictFind ((handle_suggestion pick g sg s w r).1.possibleOwners) s
      = some {"CaseFile"}
    ∧ (handle_suggestion pick g sg s w r).1.possibleOwners ≠ g.possibleOwners
    ∧ ∀ (g₂ : GameEngine) (pn : String) (s₂ w₂ r₂ : Card),
        ¬(s₂ = g₂.solution.1 ∧ w₂ = g₂.solution.2.1 ∧ r₂ = g₂.solution.2.2) →
        (handle_accusation g₂ pn s₂ w₂ r₂).2 = false
        ∧ ∀ q ∈ (handle_accusation g₂ pn s₂ w₂ r₂).1.players,
            q.name = pn → q.active = false := by
  have hloop : refuteLoop g.players (g.playerOrder.indexOf sg) s w r
      (List.range' 1 (g.players.length - 1)) = none := by
    refine refuteLoop_eq_none_of _ _ _ _ _ _ (fun o ho => ?_)
    rw [List.mem_range'_1] at ho
    exact hnomatch o ho.1 (by omega)
  have hfound : dictFind ((handle_suggestion pick g sg s w r).1.possibleOwners) s
      = some {"CaseFile"} := by
    simp only [handle_suggestion, hloop]
    exact dictFind_tripleSet _ _ _ _ _ _ (Or.inl rfl)
  refine ⟨hfound, ?_, ?_⟩
  · intro heq
    rw [heq, hunknown] at hfound
    exact Option.noConfusion hfound
  · intro g₂ pn s₂ w₂ r₂ hwrong
    constructor
    · simp [handle_accusation, hwrong]
    · intro q hq hname
      simp only [handle_accusation, if_neg hwrong] at hq
      obtain ⟨q₀, _, hq₀⟩ := List.mem_map.mp hq
      by_cases h0 : q₀.name = pn
      · rw [← hq₀] at hname ⊢
        simp [h0]
      · rw [← hq₀] at hname
        simp only [if_neg h0] at hname
        exact absurd hname h0

/-- C7 counterexample: the suspect "ghost" is not in the universe, yet
B's accusation naming it raises nothing, returns False, and eliminates
B — the engine state is changed, not left unchanged. -/
theorem no_validation_cex :
    ghostCard ∉ allCards [cS] [cW, cV] [cR]
    ∧ (handle_accusation gDemo "B" ghostCard cV cR).2 = false
    ∧ (handle_accusation gDemo "B" ghostCard cV cR).1 ≠ gDemo
    ∧ (handle_accusation gDemo "B" ghostCard cV cR).1.players.map
        (fun p => (p.name, p.active)) = [("A", true), ("B", false)] := by
  decide

/-- Witness for `invalid_reference_mutates`: A suggests the unknown
suspect "ghost" in the two-player game; B holds nothing. -/
theorem invalid_reference_mutates_witness :
    dictFind gDemo.possibleOwners ghostCard = none
    ∧ (∀ o, 1 ≤ o → o < gDemo.players.length →
        matchesOf ((gDemo.players.getD ((gDemo.playerOrder.indexOf "A" + o) % gDemo.players.length)
          defaultPlayer).hand) ghostCard cW cR = [])
    ∧ (dictFind ((handle_suggestion pickHead gDemo "A" ghostCard cW cR).1.possibleOwners) ghostCard
        = some {"CaseFile"}
      ∧ (handle_suggestion pickHead gDemo "A" ghostCard cW cR).1.possibleOwners ≠ gDemo.possibleOwners
      ∧ ∀ (g₂ : GameEngine) (pn : String) (s₂ w₂ r₂ : Card),
          ¬(s₂ = g₂.solution.1 ∧ w₂ = g₂.solution.2.1 ∧ r₂ = g₂.solution.2.2) →
          (handle_accusation g₂ pn s₂ w₂ r₂).2 = false
          ∧ ∀ q ∈ (handle_accusation g₂ pn s₂ w₂ r₂).1.players,
              q.name = pn → q.active = false) :=
  ⟨by decide,
   fun o h1 h2 => by
     have ho : o = 1 := by
       have : gDemo.players.length = 2 := by decide
       omega
     subst ho
     decide,
   invalid_reference_mutates pickHead gDemo "A" ghostCard cW cR (by decide)
     (fun o h1 h2 => by
       have ho : o = 1 := by
         have : gDemo.players.length = 2 := by decide
         omega
       subst ho
       decide)⟩

/-! ## C10: elimination semantics -/

/-- Field effects of an incorrect accusation. -/
theorem handle_accusation_wrong_fields (g : GameEngine) (pn : String) (s w r : Card)
    (h : ¬(s = g.solution.1 ∧ w = g.solution.2.1 ∧ r = g.solution.2.2)) :
    (handle_accusation g pn s w r).1.gameOver = g.gameOver
    ∧ (handle_accusation g pn s w r).1.winner = g.winner
    ∧ (handle_accusation g pn s w r).1.solution = g.solution
    ∧ (handle_accusation g pn s w r).2 = false := by
  simp [handle_accusation, h]

/-- Field effects of a correct accusation. -/
theorem handle_accusation_correct_fields (g : GameEngine) (pn : String) (s w r : Card)
    (h : s = g.solution.1 ∧ w = g.solution.2.1 ∧ r = g.solution.2.2) :
    (handle_accusation g pn s w r).1.winner = some pn
    ∧ (handle_accusation g pn s w r).1.gameOver = true
    ∧ (handle_accusation g pn s w r).1.solution = g.solution
    ∧ (handle_accusation g pn s w r).2 = true := by
  simp [handle_accusation, h]

/-- C10 (amended): after a player's incorrect accusation their active
flag is false, and no engine operation ever sets an active flag back to
true, so the elimination is permanent; the resolver keeps evaluating
accusations without gating on the active flag.  Because of that, a
subsequent *incorrect* accusation by the eliminated player leaves
game-over and winner unchanged, but a subsequent exact-match accusation
by them sets game-over and makes them the winner. -/
theorem incorrect_accusation_elimination (g : GameEngine) (pname : String)
    (s w r : Card)
    (hwrong : ¬(s = g.solution.1 ∧ w = g.solution.2.1 ∧ r = g.solution.2.2)) :
    (handle_accusation g pname s w r).2 = false
    ∧ (∀ q ∈ (handle_accusation g pname s w r).1.players,
        q.name = pname → q.active = false)
    ∧ (∀ (pick : List Card → Card) (g₂ : GameEngine) (sg : String) (s₂ w₂ r₂ : Card),
        (handle_suggestion pick g₂ sg s₂ w₂ r₂).1.players = g₂.players)
    ∧ (∀ g₂ : GameEngine, (next_player g₂).1.players = g₂.players)
    ∧ (∀ (g₂ : GameEngine) (pn₂ : String) (s₂ w₂ r₂ : Card) (q : Player),
        q ∈ (handle_accusation g₂ pn₂ s₂ w₂ r₂).1.players → q.active = true →
        ∃ q₀ ∈ g₂.players, q₀.name = q.name ∧ q₀.active = true)
    ∧ (∀ (g₂ : GameEngine) (pn₂ : String) (s₂ w₂ r₂ : Card),
        (handle_accusation g₂ pn₂ s₂ w₂ r₂).2 = true ↔
          (s₂ = g₂.solution.1 ∧ w₂ = g₂.solution.2.1 ∧ r₂ = g₂.solution.2.2))
    ∧ (∀ s₂ w₂ r₂ : Card,
        ¬(s₂ = g.solution.1 ∧ w₂ = g.solution.2.1 ∧ r₂ = g.solution.2.2) →
        (handle_accusation (handle_accusation g pname s w r).1 pname s₂ w₂ r₂).1.gameOver
            = (handle_accusation g pname s w r).1.gameOver
        ∧ (handle_accusation (handle_accusation g pname s w r).1 pname s₂ w₂ r₂).1.winner
            = (handle_accusation g pname s w r).1.winner)
    ∧ (∀ s₂ w₂ r₂ : Card,
        (s₂ = g.solution.1 ∧ w₂ = g.solution.2.1 ∧ r₂ = g.solution.2.2) →
        (handle_accusation (handle_accusation g pname s w r).1 pname s₂ w₂ r₂).1.winner
          = some pname
        ∧ (handle_accusation (handle_accusation g pname s w r).1 pname s₂ w₂ r₂).1.gameOver
          = true) := by
  refine ⟨by simp [handle_accusation, hwrong], ?_, ?_, ?_, ?_, ?_, ?_, ?_⟩
  · intro q hq hname
    simp only [handle_accusation, if_neg hwrong] at hq
    obtain ⟨q₀, _, hq₀⟩ := List.mem_map.mp hq
    by_cases h0 : q₀.name = pname
    · rw [← hq₀] at hname ⊢
      simp [h0]
    · rw [← hq₀] at hname
      simp only [if_neg h0] at hname
      exact absurd hname h0
  · intro pick g₂ sg s₂ w₂ r₂
    cases hloop : refuteLoop g₂.players (g₂.playerOrder.indexOf sg) s₂ w₂ r₂
        (List.range' 1 (g₂.players.length - 1)) with
    | some pm =>
      obtain ⟨p, ms⟩ := pm
      simp [handle_suggestion, hloop]
    | none => simp [handle_suggestion, hloop]
  · intro g₂
    simp [next_player]
  · intro g₂ pn₂ s₂ w₂ r₂ q hq hact
    by_cases hc : s₂ = g₂.solution.1 ∧ w₂ = g₂.solution.2.1 ∧ r₂ = g₂.solution.2.2
    · simp only [handle_accusation, if_pos hc] at hq
      exact ⟨q, hq, rfl, hact⟩
    · simp only [handle_accusation, if_neg hc] at hq
      obtain ⟨q₀, hq₀mem, hq₀⟩ := List.mem_map.mp hq
      by_cases h0 : q₀.name = pn₂
      · rw [← hq₀] at hact
        simp [h0] at hact
      · rw [if_neg h0] at hq₀
        subst hq₀
        exact ⟨q₀, hq₀mem, rfl, hact⟩
  · intro g₂ pn₂ s₂ w₂ r₂
    by_cases hc : s₂ = g₂.solution.1 ∧ w₂ = g₂.solution.2.1 ∧ r₂ = g₂.solution.2.2
    · simp [handle_accusation, hc]
    · simp [handle_accusation, hc]
  · intro s₂ w₂ r₂ hw₂
    have hsol := (handle_accusation_wrong_fields g pname s w r hwrong).2.2.1
    have h₂ : ¬(s₂ = (handle_accusation g pname s w r).1.solution.1
        ∧ w₂ = (handle_accusation g pname s w r).1.solution.2.1
        ∧ r₂ = (handle_accusation g pname s w r).1.solution.2.2) := by
      rw [hsol]; exact hw₂
    exact ⟨(handle_accusation_wrong_fields _ pname s₂ w₂ r₂ h₂).1,
      (handle_accusation_wrong_fields _ pname s₂ w₂ r₂ h₂).2.1⟩
  · intro s₂ w₂ r₂ hc₂
    have hsol := (handle_accusation_wrong_fields g pname s w r hwrong).2.2.1
    have h₂ : s₂ = (handle_accusation g pname s w r).1.solution.1
        ∧ w₂ = (handle_accusation g pname s w r).1.solution.2.1
        ∧ r₂ = (handle_accusation g pname s w r).1.solution.2.2 := by
      rw [hsol]; exact hc₂
    exact ⟨(handle_accusation_correct_fields _ pname s₂ w₂ r₂ h₂).1,
      (handle_accusation_correct_fields _ pname s₂ w₂ r₂ h₂).2.1⟩

/-- C10 counterexample: B is eliminated by a wrong accusation (winner
none, game not over), then B accuses with the exact solution and
becomes the winner — a subsequent accusation by an eliminated player
does change the game outcome. -/
theorem eliminated_player_wins_cex :
    gElimB.players.map (fun p => (p.name, p.active)) = [("A", true), ("B", false)]
    ∧ gElimB.gameOver = false ∧ gElimB.winner = none
    ∧ (handle_accusation gElimB "B" cS cV cR).1.winner = some "B"
    ∧ (handle_accusation gElimB "B" cS cV cR).1.gameOver = true := by decide

/-- Witness for `incorrect_accusation_elimination`: B's wrong
accusation in the concrete two-player game. -/
theorem incorrect_accusation_elimination_witness :
    ¬(cS = gDemo.solution.1 ∧ cW = gDemo.solution.2.1 ∧ cR = gDemo.solution.2.2)
    ∧ ((handle_accusation gDemo "B" cS cW cR).2 = false
    ∧ (∀ q ∈ (handle_accusation gDemo "B" cS cW cR).1.players,
        q.name = "B" → q.active = false)
    ∧ (∀ (pick : List Card → Card) (g₂ : GameEngine) (sg : String) (s₂ w₂ r₂ : Card),
        (handle_suggestion pick g₂ sg s₂ w₂ r₂).1.players = g₂.players)
    ∧ (∀ g₂ : GameEngine, (next_player g₂).1.players = g₂.players)
    ∧ (∀ (g₂ : GameEngine) (pn₂ : String) (s₂ w₂ r₂ : Card) (q : Player),
        q ∈ (handle_accusation g₂ pn₂ s₂ w₂ r₂).1.players → q.active = true →
        ∃ q₀ ∈ g₂.players, q₀.name = q.name ∧ q₀.active = true)
    ∧ (∀ (g₂ : GameEngine) (pn₂ : String) (s₂ w₂ r₂ : Card),
        (handle_accusation g₂ pn₂ s₂ w₂ r₂).2 = true ↔
          (s₂ = g₂.solution.1 ∧ w₂ = g₂.solution.2.1 ∧ r₂ = g₂.solution.2.2))
    ∧ (∀ s₂ w₂ r₂ : Card,
        ¬(s₂ = gDemo.solution.1 ∧ w₂ = gDemo.solution.2.1 ∧ r₂ = gDemo.solution.2.2) →
        (handle_accusation (handle_accusation gDemo "B" cS cW cR).1 "B" s₂ w₂ r₂).1.gameOver
            = (handle_accusation gDemo "B" cS cW cR).1.gameOver
        ∧ (handle_accusation (handle_accusation gDemo "B" cS cW cR).1 "B" s₂ w₂ r₂).1.winner
            = (handle_accusation gDemo "B" cS cW cR).1.winner)
    ∧ (∀ s₂ w₂ r₂ : Card,
        (s₂ = gDemo.solution.1 ∧ w₂ = gDemo.solution.2.1 ∧ r₂ = gDemo.solution.2.2) →
        (handle_accusation (handle_accusation gDemo "B" cS cW cR).1 "B" s₂ w₂ r₂).1.winner
          = some "B"
        ∧ (handle_accusation (handle_accusation gDemo "B" cS cW cR).1 "B" s₂ w₂ r₂).1.gameOver
          = true)) :=
  ⟨by decide, incorrect_accusation_elimination gDemo "B" cS cW cR (by decide)⟩

/-! ## C8: unrefuted suggestions -/

/-- C8 (confirmed): when no player polled by the loop (every offset
1..n-1 from the suggester, i.e. every player other than the suggester)
holds any of the three suggested cards, all three cards' owner sets
become exactly {"CaseFile"}, the record's refuter (and shown card) is
null, and the record is appended to the suggestion history. -/
theorem unrefuted_suggestion_spec (pick : List Card → Card) (g : GameEngine)
    (sg : String) (s w r : Card)
    (hnone : ∀ o, 1 ≤ o → o < g.players.length →
      matchesOf ((g.players.getD ((g.playerOrder.indexOf sg + o) % g.players.length)
        defaultPlayer).hand) s w r = []) :
    dictFind ((handle_suggestion pick g sg s w r).1.possibleOwners) s = some {"CaseFile"}
    ∧ dictFind ((handle_suggestion pick g sg s w r).1.possibleOwners) w = some {"CaseFile"}
    ∧ dictFind ((handle_suggestion pick g sg s w r).1.possibleOwners) r = some {"CaseFile"}
    ∧ (handle_suggestion pick g sg s w r).2.refuter = none
    ∧ (handle_suggestion pick g sg s w r).2.shownCard = none
    ∧ (handle_suggestion pick g sg s w r).1.suggestions
        = g.suggestions ++ [(handle_suggestion pick g sg s w r).2] := by
  have hloop : refuteLoop g.players (g.playerOrder.indexOf sg) s w r
      (List.range' 1 (g.players.length - 1)) = none := by
    refine refuteLoop_eq_none_of _ _ _ _ _ _ (fun o ho => ?_)
    rw [List.mem_range'_1] at ho
    exact hnone o ho.1 (by omega)
  refine ⟨?_, ?_, ?_, ?_, ?_, ?_⟩
  · simp only [handle_suggestion, hloop]
    exact dictFind_tripleSet _ _ _ _ _ _ (Or.inl rfl)
  · simp only [handle_suggestion, hloop]
    exact dictFind_tripleSet _ _ _ _ _ _ (Or.inr (Or.inl rfl))
  · simp only [handle_suggestion, hloop]
    exact dictFind_tripleSet _ _ _ _ _ _ (Or.inr (Or.inr rfl))
  · simp [handle_suggestion, hloop]
  · simp [handle_suggestion, hloop]
  · simp [handle_suggestion, hloop]

/-- Witness for `unrefuted_suggestion_spec`: A suggests (s, w, r) in
the two-player game; B (the only other player) holds nothing. -/
theorem unrefuted_suggestion_spec_witness :
    (∀ o, 1 ≤ o → o < gDemo.players.length →
      matchesOf ((gDemo.players.getD ((gDemo.playerOrder.indexOf "A" + o) % gDemo.players.length)
        defaultPlayer).hand) cS cW cR = [])
    ∧ (dictFind ((handle_suggestion pickHead gDemo "A" cS cW cR).1.possibleOwners) cS
        = some {"CaseFile"}
      ∧ dictFind ((handle_suggestion pickHead gDemo "A" cS cW cR).1.possibleOwners) cW
        = some {"CaseFile"}
      ∧ dictFind ((handle_suggestion pickHead gDemo "A" cS cW cR).1.possibleOwners) cR
        = some {"CaseFile"}
      ∧ (handle_suggestion pickHead gDemo "A" cS cW cR).2.refuter = none
      ∧ (handle_suggestion pickHead gDemo "A" cS cW cR).2.shownCard = none
      ∧ (handle_suggestion pickHead gDemo "A" cS cW cR).1.suggestions
          = gDemo.suggestions ++ [(handle_suggestion pickHead gDemo "A" cS cW cR).2]) :=
  ⟨fun o h1 h2 => by
     have ho : o = 1 := by
       have : gDemo.players.length = 2 := by decide
       omega
     subst ho
     decide,
   unrefuted_suggestion_spec pickHead gDemo "A" cS cW cR
     (fun o h1 h2 => by
       have ho : o = 1 := by
         have : gDemo.players.length = 2 := by decide
         omega
       subst ho
       decide)⟩

/-! ## C9: refutations -/

/-- C9 (confirmed): whenever a suggestion is refuted, the refuter is
one of the players, the shown card is one of the three suggested cards
and is present in the refuter's hand, and the shown card's owner set
becomes exactly the singleton {refuter}.  The hypothesis on `pick`
states what `random.choice` guarantees: it returns an element of the
non-empty list it is given. -/
theorem refutation_shown_card (pick : List Card → Card) (g : GameEngine)
    (sg : String) (s w r : Card) (pn : String)
    (hpick : ∀ l : List Card, l ≠ [] → pick l ∈ l)
    (href : (handle_suggestion pick g sg s w r).2.refuter = some pn) :
    ∃ p : Player, p ∈ g.players ∧ p.name = pn ∧
      ∃ shown, (handle_suggestion pick g sg s w r).2.shownCard = some shown
        ∧ (shown = s ∨ shown = w ∨ shown = r)
        ∧ shown ∈ p.hand
        ∧ dictFind ((handle_suggestion pick g sg s w r).1.possibleOwners) shown
            = some {pn} := by
  cases hloop : refuteLoop g.players (g.playerOrder.indexOf sg) s w r
      (List.range' 1 (g.players.length - 1)) with
  | none => simp [handle_suggestion, hloop] at href
  | some pm =>
    obtain ⟨p, ms⟩ := pm
    obtain ⟨hms, hne, o, ho, hp⟩ := refuteLoop_eq_some_inv _ _ _ _ _ _ _ _ hloop
    have hpn : p.name = pn := by
      simpa [handle_suggestion, hloop] using href
    have hmem : p ∈ g.players := by
      rw [List.mem_range'_1] at ho
      have hlen : 1 ≤ g.players.length - 1 := by
        by_contra hl
        omega
      have hlt : (g.playerOrder.indexOf sg + o) % g.players.length < g.players.length :=
        Nat.mod_lt _ (by omega)
      rw [hp, List.getD_eq_getElem _ _ hlt]
      exact List.getElem_mem hlt
    have hshown : pick ms ∈ ms := hpick ms hne
    have hfilter : pick ms ∈ matchesOf p.hand s w r := by
      rw [← hms]
      exact hshown
    rw [matchesOf, List.mem_filter] at hfilter
    refine ⟨p, hmem, hpn, pick ms, ?_, ?_, hfilter.1, ?_⟩
    · simp [handle_suggestion, hloop]
    · have := hfilter.2
      simpa using this
    · have : dictFind ((handle_suggestion pick g sg s w r).1.possibleOwners) (pick ms)
          = some {p.name} := by
        simp only [handle_suggestion, hloop]
        exact dictFind_dictSet_self ..
      rw [hpn] at this
      exact this

/-- Witness for `refutation_shown_card`: B suggests (s, w, r) after
A's unrefuted suggestion; A holds w and refutes by showing it. -/
theorem refutation_shown_card_witness :
    (∀ l : List Card, l ≠ [] → pickHead l ∈ l)
    ∧ (handle_suggestion pickHead gSuggest1 "B" cS cW cR).2.refuter = some "A"
    ∧ ∃ p : Player, p ∈ gSuggest1.players ∧ p.name = "A" ∧
      ∃ shown, (handle_suggestion pickHead gSuggest1 "B" cS cW cR).2.shownCard = some shown
        ∧ (shown = cS ∨ shown = cW ∨ shown = cR)
        ∧ shown ∈ p.hand
        ∧ dictFind ((handle_suggestion pickHead gSuggest1 "B" cS cW cR).1.possibleOwners) shown
            = some {"A"} :=
  ⟨fun l hl => by
     cases l with
     | nil => exact absurd rfl hl
     | cons a t => simp [pickHead],
   by decide,
   refutation_shown_card pickHead gSuggest1 "B" cS cW cR "A"
     (fun l hl => by
       cases l with
       | nil => exact absurd rfl hl
       | cons a t => simp [pickHead])
     (by decide)⟩

/-! ## C4: first refuter in turn order -/

/-- C4 (confirmed): the loop polls every other player (offsets 1..n-1
from the suggester's seat, active or inactive, never the suggester
itself) in turn order, and the recorded refuter is the player at the
first offset k holding a matching card — later players holding matching
cards are never reached.  The shown card is `random.choice` of that
first player's matching cards. -/
theorem suggestion_first_refuter (pick : List Card → Card) (g : GameEngine)
    (sg : String) (s w r : Card) (k : Nat)
    (_hsg : sg ∈ g.playerOrder)
    (hk1 : 1 ≤ k) (hkn : k < g.players.length)
    (hmatch : matchesOf ((g.players.getD
        ((g.playerOrder.indexOf sg + k) % g.players.length) defaultPlayer).hand) s w r ≠ [])
    (hfirst : ∀ j, 1 ≤ j → j < k →
      matchesOf ((g.players.getD
        ((g.playerOrder.indexOf sg + j) % g.players.length) defaultPlayer).hand) s w r = []) :
    (handle_suggestion pick g sg s w r).2.refuter
      = some ((g.players.getD
          ((g.playerOrder.indexOf sg + k) % g.players.length) defaultPlayer).name)
    ∧ (handle_suggestion pick g sg s w r).2.shownCard
      = some (pick (matchesOf ((g.players.getD
          ((g.playerOrder.indexOf sg + k) % g.players.length) defaultPlayer).hand) s w r)) := by
  have h1 : List.range' 1 (k - 1) ++ List.range' k (g.players.length - k)
      = List.range' 1 (g.players.length - 1) := by
    have h := List.range'_append 1 (k - 1) (g.players.length - k) 1
    rw [show 1 + 1 * (k - 1) = k by omega] at h
    rw [show g.players.length - k + (k - 1) = g.players.length - 1 by omega] at h
    exact h
  have h2 : List.range' k (g.players.length - k)
      = k :: List.range' (k + 1) (g.players.length - k - 1) := by
    rw [show g.players.length - k = (g.players.length - k - 1) + 1 by omega,
      List.range'_succ]
    simp
  have hsplit : List.range' 1 (g.players.length - 1)
      = List.range' 1 (k - 1) ++ k :: List.range' (k + 1) (g.players.length - k - 1) := by
    rw [← h1, h2]
  have hloop := refuteLoop_first_match g.players (g.playerOrder.indexOf sg) s w r
    (List.range' 1 (k - 1)) k (List.range' (k + 1) (g.players.length - k - 1))
    (fun j hj => by
      rw [List.mem_range'_1] at hj
      exact hfirst j hj.1 (by omega))
    hmatch
  rw [← hsplit] at hloop
  constructor
  · simp [handle_suggestion, hloop]
  · simp [handle_suggestion, hloop]

/-- Witness for `suggestion_first_refuter`: in `gSuggest1`, B suggests
(s, w, r); the player at offset 1 from B is A, who holds w. -/
theorem suggestion_first_refuter_witness :
    "B" ∈ gSuggest1.playerOrder
    ∧ 1 ≤ 1 ∧ 1 < gSuggest1.players.length
    ∧ matchesOf ((gSuggest1.players.getD
        ((gSuggest1.playerOrder.indexOf "B" + 1) % gSuggest1.players.length)
        defaultPlayer).hand) cS cW cR ≠ []
    ∧ ((handle_suggestion pickHead gSuggest1 "B" cS cW cR).2.refuter
        = some ((gSuggest1.players.getD
            ((gSuggest1.playerOrder.indexOf "B" + 1) % gSuggest1.players.length)
            defaultPlayer).name)
      ∧ (handle_suggestion pickHead gSuggest1 "B" cS cW cR).2.shownCard
        = some (pickHead (matchesOf ((gSuggest1.players.getD
            ((gSuggest1.playerOrder.indexOf "B" + 1) % gSuggest1.players.length)
            defaultPlayer).hand) cS cW cR))) :=
  ⟨by decide, by decide, by decide, by decide,
   suggestion_first_refuter pickHead gSuggest1 "B" cS cW cR 1
     (by decide) (by decide) (by decide) (by decide)
     (fun j h1 h2 => absurd h2 (by omega))⟩

/-! ## C2: turn advancement -/

/-- `next_player`'s loop when every player is inactive: stepping from
`idx`, the loop runs until the index returns to `original` and then
fires the game-over branch. -/
theorem nextPlayerAux_all_inactive (players : List Player) (orig : Nat)
    (hall : ∀ q ∈ players, q.active = false) (hne : players ≠ []) :
    ∀ fuel idx, orig < players.length →
    (∃ t, 1 ≤ t ∧ t ≤ fuel ∧ (idx + t) % players.length = orig) →
    nextPlayerAux players orig idx fuel = (orig, true) := by
  intro fuel
  induction fuel with
  | zero =>
    rintro idx _ ⟨t, h1, h2, _⟩
    omega
  | succ fuel ih =>
    rintro idx horig ⟨t, ht1, ht2, ht3⟩
    have hn : 0 < players.length := List.length_pos.mpr hne
    have hp : (players.getD ((idx + 1) % players.length) defaultPlayer).active = false := by
      apply hall
      rw [List.getD_eq_getElem _ _ (Nat.mod_lt _ hn)]
      exact List.getElem_mem _
    simp only [nextPlayerAux]
    by_cases he : (idx + 1) % players.length = orig
    · rw [if_pos ⟨he, hp⟩, he]
    · rw [if_neg (fun hcon => he hcon.1), if_neg (by rw [hp]; simp)]
      apply ih _ horig
      have ht : 2 ≤ t := by
        by_contra hcon
        have : t = 1 := by omega
        subst this
        exact he ht3
      refine ⟨t - 1, by omega, by omega, ?_⟩
      rw [Nat.mod_add_mod, show idx + 1 + (t - 1) = idx + t by omega]
      exact ht3

/-- `next_player`'s loop when some player ahead is active: it stops on
the first active player, at offset `k` from `idx`, provided the walk
does not pass the game-over seat (`original`) strictly before `k`. -/
theorem nextPlayerAux_first_active (players : List Player) (orig : Nat) :
    ∀ fuel idx k, 1 ≤ k → k ≤ fuel →
    (players.getD ((idx + k) % players.length) defaultPlayer).active = true →
    (∀ j, 1 ≤ j → j < k →
      (players.getD ((idx + j) % players.length) defaultPlayer).active = false) →
    (∀ j, 1 ≤ j → j < k → (idx + j) % players.length ≠ orig) →
    nextPlayerAux players orig idx fuel = ((idx + k) % players.length, false) := by
  intro fuel
  induction fuel with
  | zero =>
    intro idx k h1 h2 _ _ _
    omega
  | succ fuel ih =>
    intro idx k hk1 hkf hact hfirst hnorig
    simp only [nextPlayerAux]
    by_cases hk : k = 1
    · subst hk
      rw [if_neg (fun hcon => by rw [hact] at hcon; exact Bool.noConfusion hcon.2),
        if_pos hact]
    · have hin := hfirst 1 le_rfl (by omega)
      have hno := hnorig 1 le_rfl (by omega)
      rw [if_neg (fun hcon => hno hcon.1), if_neg (by rw [hin]; simp)]
      have hstep := ih ((idx + 1) % players.length) (k - 1) (by omega) (by omega)
        (by rw [Nat.mod_add_mod, show idx + 1 + (k - 1) = idx + k by omega]
            exact hact)
        (fun j hj1 hjk => by
          rw [Nat.mod_add_mod, show idx + 1 + j = idx + (j + 1) by omega]
          exact hfirst (j + 1) (by omega) (by omega))
        (fun j hj1 hjk => by
          rw [Nat.mod_add_mod, show idx + 1 + j = idx + (j + 1) by omega]
          exact hnorig (j + 1) (by omega) (by omega))
      rw [hstep, Nat.mod_add_mod, show idx + 1 + (k - 1) = idx + k by omega]

/-- C2 (confirmed): advancing the turn (a) when every player is
inactive, completes the circle, sets game-over true, does not set a
winner (the winner field is untouched) and leaves the index at the
starting seat; (b) when some player is active, stops on the first
active player found stepping the index forward circularly (possibly
returning to the starting seat itself when it is the only active one,
k = n), never selecting an inactive player, and leaves game-over and
winner unchanged. -/
theorem next_player_spec (g : GameEngine)
    (hne : g.players ≠ []) (hidx : g.currentPlayerIndex < g.players.length) :
    ((∀ q ∈ g.players, q.active = false) →
      (next_player g).1.gameOver = true
      ∧ (next_player g).1.winner = g.winner
      ∧ (next_player g).1.currentPlayerIndex = g.currentPlayerIndex)
    ∧ ((∃ q ∈ g.players, q.active = true) →
      ∃ k, 1 ≤ k ∧ k ≤ g.players.length
        ∧ (next_player g).1.currentPlayerIndex
            = (g.currentPlayerIndex + k) % g.players.length
        ∧ (g.players.getD ((next_player g).1.currentPlayerIndex) defaultPlayer).active = true
        ∧ (next_player g).2
            = g.players.getD ((next_player g).1.currentPlayerIndex) defaultPlayer
        ∧ (∀ j, 1 ≤ j → j < k →
            (g.players.getD ((g.currentPlayerIndex + j) % g.players.length)
              defaultPlayer).active = false)
        ∧ (next_player g).1.gameOver = g.gameOver
        ∧ (next_player g).1.winner = g.winner) := by
  have hn : 0 < g.players.length := List.length_pos.mpr hne
  constructor
  · intro hall
    have hres := nextPlayerAux_all_inactive g.players g.currentPlayerIndex hall hne
      g.players.length g.currentPlayerIndex hidx
      ⟨g.players.length, hn, le_rfl, by rw [Nat.add_mod_right]; exact Nat.mod_eq_of_lt hidx⟩
    simp [next_player, hres]
  · rintro ⟨q, hq, hact⟩
    obtain ⟨m, hm, hqm⟩ := List.mem_iff_getElem.mp hq
    have hQex : ∃ k, ((g.players.getD ((g.currentPlayerIndex + k) % g.players.length)
        defaultPlayer).active = true ∧ 1 ≤ k) ∧ k ≤ g.players.length := by
      refine ⟨if g.currentPlayerIndex < m then m - g.currentPlayerIndex
        else m + g.players.length - g.currentPlayerIndex, ⟨?_, ?_⟩, ?_⟩
      · have hmod : (g.currentPlayerIndex + (if g.currentPlayerIndex < m
            then m - g.currentPlayerIndex
            else m + g.players.length - g.currentPlayerIndex)) % g.players.length = m := by
          by_cases hlt : g.currentPlayerIndex < m
          · rw [if_pos hlt, show g.currentPlayerIndex + (m - g.currentPlayerIndex) = m by omega]
            exact Nat.mod_eq_of_lt hm
          · rw [if_neg hlt, show g.currentPlayerIndex
              + (m + g.players.length - g.currentPlayerIndex) = m + g.players.length by omega]
            rw [Nat.add_mod_right]
            exact Nat.mod_eq_of_lt hm
        rw [hmod, List.getD_eq_getElem _ _ hm, hqm]
        exact hact
      · by_cases hlt : g.currentPlayerIndex < m
        · rw [if_pos hlt]; omega
        · rw [if_neg hlt]; omega
      · by_cases hlt : g.currentPlayerIndex < m
        · rw [if_pos hlt]; omega
        · rw [if_neg hlt]; omega
    obtain ⟨k', hQk', hk'n⟩ := hQex
    have hQnonempty : ∃ k, (g.players.getD ((g.currentPlayerIndex + k) % g.players.length)
        defaultPlayer).active = true ∧ 1 ≤ k := ⟨k', hQk'⟩
    set k := Nat.find hQnonempty with hkdef
    have hQk := Nat.find_spec hQnonempty
    have hkle : k ≤ k' := Nat.find_min' hQnonempty hQk'
    have hfirst : ∀ j, 1 ≤ j → j < k →
        (g.players.getD ((g.currentPlayerIndex + j) % g.players.length)
          defaultPlayer).active = false := by
      intro j hj1 hjk
      have := Nat.find_min hQnonempty hjk
      rw [not_and_or] at this
      rcases this with h | h
      · exact Bool.not_eq_true _ ▸ (by simpa using h)
      · omega
    have hnorig : ∀ j, 1 ≤ j → j < k →
        (g.currentPlayerIndex + j) % g.players.length ≠ g.currentPlayerIndex := by
      intro j hj1 hjk heq
      have hjn : j < g.players.length := by omega
      have hmodeq : g.currentPlayerIndex % g.players.length
          = (g.currentPlayerIndex + j) % g.players.length := by
        rw [heq, Nat.mod_eq_of_lt hidx]
      have hdvd : g.players.length ∣ (g.currentPlayerIndex + j) - g.currentPlayerIndex :=
        (Nat.modEq_iff_dvd' (by omega)).mp hmodeq
      rw [Nat.add_sub_cancel_left] at hdvd
      have := Nat.le_of_dvd (by omega) hdvd
      omega
    have hres := nextPlayerAux_first_active g.players g.currentPlayerIndex
      g.players.length g.currentPlayerIndex k hQk.2 (by omega) hQk.1 hfirst hnorig
    refine ⟨k, hQk.2, by omega, ?_, ?_, ?_, hfirst, ?_, ?_⟩
    · simp [next_player, hres]
    · simp only [next_player, hres]
      exact hQk.1
    · simp [next_player, hres]
    · simp [next_player, hres]
    · simp [next_player, hres]

/-- Witness for `next_player_spec`: the two-player game `gDemo` (both
players active: advancing from seat 0 stops on seat 1) and its
all-inactive variant expressed by eliminating both players is not
needed — the two implications are exercised at `gDemo` itself. -/
theorem next_player_spec_witness :
    gDemo.players ≠ [] ∧ gDemo.currentPlayerIndex < gDemo.players.length
    ∧ (((∀ q ∈ gDemo.players, q.active = false) →
        (next_player gDemo).1.gameOver = true
        ∧ (next_player gDemo).1.winner = gDemo.winner
        ∧ (next_player gDemo).1.currentPlayerIndex = gDemo.currentPlayerIndex)
      ∧ ((∃ q ∈ gDemo.players, q.active = true) →
        ∃ k, 1 ≤ k ∧ k ≤ gDemo.players.length
          ∧ (next_player gDemo).1.currentPlayerIndex
              = (gDemo.currentPlayerIndex + k) % gDemo.players.length
          ∧ (gDemo.players.getD ((next_player gDemo).1.currentPlayerIndex)
              defaultPlayer).active = true
          ∧ (next_player gDemo).2
              = gDemo.players.getD ((next_player gDemo).1.currentPlayerIndex) defaultPlayer
          ∧ (∀ j, 1 ≤ j → j < k →
              (gDemo.players.getD ((gDemo.currentPlayerIndex + j) % gDemo.players.length)
                defaultPlayer).active = false)
          ∧ (next_player gDemo).1.gameOver = gDemo.gameOver
          ∧ (next_player gDemo).1.winner = gDemo.winner)) :=
  ⟨by decide, by decide, next_player_spec gDemo (by decide) (by decide)⟩

/-! ## C3: dealing -/

/-- Summed over all players, the round-robin deal accounts for every
occurrence of every card in the deck. -/
theorem sum_count_dealtTo (n : Nat) (hn : 0 < n) (x : Card) :
    ∀ (l : List Card) (i : Nat),
      (∑ p ∈ Finset.range n, ((dealtTo n p i l).count x)) = l.count x := by
  intro l
  induction l with
  | nil =>
    intro i
    simp [dealtTo]
  | cons c rest ih =>
    intro i
    have hstep : ∀ p, ((dealtTo n p i (c :: rest)).count x)
        = (if i % n = p then ([c].count x) else 0)
          + ((dealtTo n p (i + 1) rest).count x) := by
      intro p
      simp only [dealtTo, List.count_append, apply_ite (List.count x), List.count_nil]
    rw [Finset.sum_congr rfl (fun p _ => hstep p), Finset.sum_add_distrib, ih (i + 1)]
    rw [Finset.sum_ite_eq (Finset.range n) (i % n) (fun _ => [c].count x)]
    rw [if_pos (Finset.mem_range.mpr (Nat.mod_lt _ hn))]
    simp [List.count_cons]
    split_ifs <;> omega

/-- Counting a card in the concatenation of the per-player hands. -/
theorem count_join_range (f : Nat → List Card) (n : Nat) (x : Card) :
    (((List.range n).map f).flatten.count x) = ∑ p ∈ Finset.range n, ((f p).count x) := by
  induction n with
  | zero => simp
  | succ n ih =>
    rw [List.range_succ, List.map_append, List.flatten_append, List.count_append, ih,
      Finset.sum_range_succ]
    simp [List.count_append]

/-- Dealing distributes over appending one card at the end of the deck:
the extra card goes to the player whose turn the round-robin has
reached. -/
theorem dealtTo_append_single (n p : Nat) :
    ∀ (l : List Card) (i : Nat) (a : Card),
      dealtTo n p i (l ++ [a])
        = dealtTo n p i l ++ (if (i + l.length) % n = p then [a] else []) := by
  intro l
  induction l with
  | nil =>
    intro i a
    simp [dealtTo]
  | cons c rest ih =>
    intro i a
    rw [List.cons_append]
    simp only [dealtTo]
    rw [ih (i + 1) a, List.length_cons,
      show i + 1 + rest.length = i + (rest.length + 1) by omega, List.append_assoc]

/-- Size of the hand dealt to player `p` from a deck of `l.length`
cards: `⌊len/n⌋`, plus one for the first `len % n` players. -/
theorem length_dealtTo_zero (n p : Nat) (hn : 0 < n) (hp : p < n) (l : List Card) :
    (dealtTo n p 0 l).length
      = l.length / n + (if p < l.length % n then 1 else 0) := by
  induction l using List.reverseRecOn with
  | nil => simp [dealtTo, Nat.zero_div]
  | append_singleton l a ih =>
    rw [dealtTo_append_single, List.length_append, ih]
    simp only [List.length_append, List.length_singleton, List.length_nil, zero_add,
      apply_ite List.length]
    have hm1 : (l.length + 1) / n = l.length / n + (l.length % n + 1) / n := by
      conv_lhs => rw [← Nat.div_add_mod l.length n]
      rw [show n * (l.length / n) + l.length % n + 1
          = n * (l.length / n) + (l.length % n + 1) by omega, Nat.mul_add_div hn]
    have hm2 : (l.length + 1) % n = (l.length % n + 1) % n := by
      conv_lhs => rw [← Nat.div_add_mod l.length n]
      rw [show n * (l.length / n) + l.length % n + 1
          = n * (l.length / n) + (l.length % n + 1) by omega, Nat.mul_add_mod]
    have hmod : l.length % n < n := Nat.mod_lt _ hn
    by_cases hc : l.length % n + 1 = n
    · rw [hm1, hm2, hc, Nat.div_self hn, Nat.mod_self]
      split_ifs <;> omega
    · have h1 : (l.length % n + 1) / n = 0 := Nat.div_eq_of_lt (by omega)
      have h2 : (l.length % n + 1) % n = l.length % n + 1 := Nat.mod_eq_of_lt (by omega)
      rw [hm1, hm2, h1, h2]
      split_ifs <;> omega

/-- Ceiling division `⌈m/n⌉ = (m + n - 1) / n` exceeds the floor by
one exactly when `n` does not divide `m`. -/
theorem ceil_div_eq_succ (n m : Nat) (hn : 0 < n) (hm : 1 ≤ m % n) :
    (m + n - 1) / n = m / n + 1 := by
  have hq := Nat.div_add_mod m n
  have hmod : m % n < n := Nat.mod_lt _ hn
  have hstep : m + n - 1 = n * (m / n) + (m % n + n - 1) := by omega
  rw [hstep, Nat.mul_add_div hn,
    show m % n + n - 1 = (m % n - 1) + n by omega,
    Nat.add_div_right _ hn, Nat.div_eq_of_lt (show m % n - 1 < n by omega)]

/-- C3 (confirmed): for every valid setup (at least one player, a
duplicate-free card universe, a solution triple drawn one card from
each category, any shuffle of the remaining deck), the three solution
cards together with all dealt hands form a permutation of the card
universe (each card exactly once, no duplicate, no omission), and every
hand has size `⌊rem/n⌋` or `⌈rem/n⌉` where `rem` is the universe size
minus 3 and `n` the number of players. -/
theorem deal_partition_spec (playerNames : List String)
    (suspects weapons rooms : List Card) (sol : Card × Card × Card)
    (shuffled : List Card)
    (hn : playerNames ≠ [])
    (hU : (allCards suspects weapons rooms).Nodup)
    (hs : sol.1 ∈ suspects) (hw : sol.2.1 ∈ weapons) (hr : sol.2.2 ∈ rooms)
    (hd1 : sol.1 ≠ sol.2.1) (hd2 : sol.1 ≠ sol.2.2) (hd3 : sol.2.1 ≠ sol.2.2)
    (hperm : shuffled.Perm (removedDeck suspects weapons rooms sol)) :
    ([sol.1, sol.2.1, sol.2.2]
        ++ ((mkEngine playerNames suspects weapons rooms sol shuffled).players.map
              Player.hand).flatten).Perm (allCards suspects weapons rooms)
    ∧ ([sol.1, sol.2.1, sol.2.2]
        ++ ((mkEngine playerNames suspects weapons rooms sol shuffled).players.map
              Player.hand).flatten).Nodup
    ∧ ∀ h ∈ (mkEngine playerNames suspects weapons rooms sol shuffled).players.map
          Player.hand,
        h.length = ((allCards suspects weapons rooms).length - 3) / playerNames.length
        ∨ h.length = ((allCards suspects weapons rooms).length - 3 + playerNames.length - 1)
            / playerNames.length := by
  have hnpos : 0 < playerNames.length := List.length_pos.mpr hn
  have hhands : (mkEngine playerNames suspects weapons rooms sol shuffled).players.map
        Player.hand
      = (List.range playerNames.length).map
          (fun i => dealtTo playerNames.length i 0 shuffled) := by
    simp [mkEngine, List.map_map, Function.comp]
  have hsU : sol.1 ∈ allCards suspects weapons rooms := by
    simp only [allCards, List.mem_append]
    exact Or.inl (Or.inl hs)
  have hwU : sol.2.1 ∈ allCards suspects weapons rooms := by
    simp only [allCards, List.mem_append]
    exact Or.inl (Or.inr hw)
  have hrU : sol.2.2 ∈ allCards suspects weapons rooms := by
    simp only [allCards, List.mem_append]
    exact Or.inr hr
  have hRD : removedDeck suspects weapons rooms sol
      = (((allCards suspects weapons rooms).erase sol.1).erase sol.2.1).erase sol.2.2 := rfl
  have hwU1 : sol.2.1 ∈ (allCards suspects weapons rooms).erase sol.1 :=
    (List.mem_erase_of_ne hd1.symm).mpr hwU
  have hrU2 : sol.2.2 ∈ ((allCards suspects weapons rooms).erase sol.1).erase sol.2.1 :=
    (List.mem_erase_of_ne hd3.symm).mpr ((List.mem_erase_of_ne hd2.symm).mpr hrU)
  have hlenRD : (removedDeck suspects weapons rooms sol).length
      = (allCards suspects weapons rooms).length - 3 := by
    rw [hRD, List.length_erase_of_mem hrU2, List.length_erase_of_mem hwU1,
      List.length_erase_of_mem hsU]
    omega
  have hlenSh : shuffled.length = (allCards suspects weapons rooms).length - 3 := by
    rw [hperm.length_eq, hlenRD]
  have hjoin : ∀ x : Card,
      ((((mkEngine playerNames suspects weapons rooms sol shuffled).players.map
          Player.hand).flatten).count x) = shuffled.count x := by
    intro x
    rw [hhands, count_join_range, sum_count_dealtTo playerNames.length hnpos x shuffled 0]
  have h1 : 0 < (allCards suspects weapons rooms).count sol.1 :=
    List.count_pos_iff.mpr hsU
  have h2 : 0 < (allCards suspects weapons rooms).count sol.2.1 :=
    List.count_pos_iff.mpr hwU
  have h3 : 0 < (allCards suspects weapons rooms).count sol.2.2 :=
    List.count_pos_iff.mpr hrU
  have hcount : ∀ x : Card,
      (([sol.1, sol.2.1, sol.2.2]
        ++ ((mkEngine playerNames suspects weapons rooms sol shuffled).players.map
              Player.hand).flatten).count x)
      = (allCards suspects weapons rooms).count x := by
    intro x
    rw [List.count_append, hjoin x, hperm.count_eq x, hRD]
    rw [List.count_erase, List.count_erase, List.count_erase]
    simp only [List.count_cons, List.count_nil, beq_iff_eq]
    by_cases hx1 : x = sol.1
    · subst hx1
      simp [hd1, hd2, Ne.symm hd1, Ne.symm hd2]
      omega
    · by_cases hx2 : x = sol.2.1
      · subst hx2
        simp [hd1, hd3, Ne.symm hd1, Ne.symm hd3]
        omega
      · by_cases hx3 : x = sol.2.2
        · subst hx3
          simp [hd2, hd3, Ne.symm hd2, Ne.symm hd3]
          omega
        · simp [hx1, hx2, hx3, Ne.symm hx1, Ne.symm hx2, Ne.symm hx3]
  have hpermFinal : ([sol.1, sol.2.1, sol.2.2]
      ++ ((mkEngine playerNames suspects weapons rooms sol shuffled).players.map
            Player.hand).flatten).Perm (allCards suspects weapons rooms) :=
    List.perm_iff_count.mpr hcount
  refine ⟨hpermFinal, hpermFinal.nodup_iff.mpr hU, ?_⟩
  intro h hmem
  rw [hhands] at hmem
  obtain ⟨i, hi, hdeal⟩ := List.mem_map.mp hmem
  rw [List.mem_range] at hi
  subst hdeal
  rw [length_dealtTo_zero playerNames.length i hnpos hi shuffled, hlenSh]
  by_cases hc : i < ((allCards suspects weapons rooms).length - 3) % playerNames.length
  · right
    rw [if_pos hc, ceil_div_eq_succ playerNames.length
      ((allCards suspects weapons rooms).length - 3) hnpos (by omega)]
  · left
    rw [if_neg hc]
    omega

/-- Witness for `deal_partition_spec`: the concrete two-player setup of
`gDemo` (universe {s, w, v, r}, solution (s, v, r), deck [w]). -/
theorem deal_partition_spec_witness :
    (["A", "B"] : List String) ≠ []
    ∧ (allCards [cS] [cW, cV] [cR]).Nodup
    ∧ cS ∈ [cS] ∧ cV ∈ [cW, cV] ∧ cR ∈ [cR]
    ∧ cS ≠ cV ∧ cS ≠ cR ∧ cV ≠ cR
    ∧ ([cW] : List Card).Perm (removedDeck [cS] [cW, cV] [cR] (cS, cV, cR))
    ∧ (([cS, cV, cR]
        ++ ((mkEngine ["A", "B"] [cS] [cW, cV] [cR] (cS, cV, cR) [cW]).players.map
              Player.hand).flatten).Perm (allCards [cS] [cW, cV] [cR])
      ∧ ([cS, cV, cR]
        ++ ((mkEngine ["A", "B"] [cS] [cW, cV] [cR] (cS, cV, cR) [cW]).players.map
              Player.hand).flatten).Nodup
      ∧ ∀ h ∈ (mkEngine ["A", "B"] [cS] [cW, cV] [cR] (cS, cV, cR) [cW]).players.map
            Player.hand,
          h.length
              = ((allCards [cS] [cW, cV] [cR]).length - 3) / (["A", "B"] : List String).length
          ∨ h.length
              = ((allCards [cS] [cW, cV] [cR]).length - 3 + (["A", "B"] : List String).length - 1)
                / (["A", "B"] : List String).length) := by
  have hp : ([cW] : List Card).Perm (removedDeck [cS] [cW, cV] [cR] (cS, cV, cR)) := by
    rw [show removedDeck [cS] [cW, cV] [cR] (cS, cV, cR) = [cW] by rfl]
  exact ⟨by decide, by decide, by decide, by decide, by decide, by decide, by decide,
    by decide, hp,
    deal_partition_spec ["A", "B"] [cS] [cW, cV] [cR] (cS, cV, cR) [cW]
      (by decide) (by decide) (by decide) (by decide) (by decide)
      (by decide) (by decide) (by decide) hp⟩
